import Mathlib

/-!
Verification development for the recipe-sharing backend
(`backend/routes/recipes.js`).

The definitions below are a shallow embedding of the route handlers:
JavaScript arrays become `List`, object ids become `Nat` (user ids) and
`String` (recipe ids), nullable strings become `Option String` (with the
JavaScript truthiness convention `"" = falsy`), and the Cloudinary media
host is modelled by an environment record recording whether its
configuration is present and whether a `destroy` call succeeds.
Exceptions thrown inside a handler's `try` block surface as dedicated
result constructors (the outer `catch` answers HTTP 500).
-/

namespace RecipeApp

/-! ## JavaScript-level helpers -/

/-- Truthiness of an optional string field of `req.body`
(`undefined` and `""` are falsy, everything else truthy). -/
def optTruthy : Option String → Bool
  | some s => !(s == "")
  | none => false

/-- Model of JavaScript `String.prototype.startsWith`. -/
def jsStartsWith (s p : String) : Bool :=
  p.data.isPrefixOf s.data

/-- Stable insertion of `a` into `l`: elements `b` with `le b a` stay in
front of `a`.  Building block for the model of `Array.prototype.sort`. -/
def insertSorted (le : α → α → Bool) (a : α) : List α → List α
  | [] => [a]
  | b :: bs => if le b a then b :: insertSorted le a bs else a :: b :: bs

/-- Model of JavaScript `Array.prototype.sort` (a stable sort by `le`;
the handlers only ever sort lists of distinct object keys, for which
every stable sort produces the same result as the engine's sort). -/
def jsSort (le : α → α → Bool) : List α → List α
  | [] => []
  | a :: as => insertSorted le a (jsSort le as)

/-- A multipart body field can hold a single string or an array of
strings (the two shapes `req.body.ingredients` can take). -/
inductive JSValue where
  | vStr (s : String)
  | vArr (xs : List String)
deriving DecidableEq, Repr

/-- JavaScript truthiness of a body field value
(`""` is falsy; every array is truthy). -/
def jsTruthy : JSValue → Bool
  | .vStr s => !(s == "")
  | .vArr _ => true

/-- JavaScript string coercion applied by `JSON.parse` to a non-string
argument: an array is joined with `","` (`Array.prototype.toString`). -/
def jsToStringValue : JSValue → String
  | .vStr s => s
  | .vArr xs => String.intercalate "," xs

/-! ## A model of `JSON.parse` over the full JSON grammar
(ECMA-404, as `JSON.parse` implements it): values are `null`, booleans,
numbers (exact literal syntax: optional minus, `0` or a nonzero-led
digit run, optional fraction, optional exponent — leading zeros and
bare dots are syntax errors), strings with escape sequences, arrays and
objects.  Two stated deviations, both outside what these handlers can
meet: a number is kept as its source literal rather than converted to a
double, and a `\uXXXX` escape decodes to the code unit's character
(surrogate pairs are not recombined; a lone surrogate, which Lean's
`Char` cannot represent, decodes to `Char.ofNat`'s fallback). -/

/-- A parsed JSON value. -/
inductive JsonVal where
  | jNull
  | jBool (b : Bool)
  | jNum (lit : String)
  | jStr (s : String)
  | jArr (elems : List JsonVal)
  | jObj (members : List (String × JsonVal))

/-- JSON whitespace (`JSON.parse` accepts exactly tab, LF, CR and
space). -/
def isJsonWs (c : Char) : Bool :=
  c.toNat == 32 || c.toNat == 9 || c.toNat == 10 || c.toNat == 13

/-- Drop leading JSON whitespace. -/
def skipWs : List Char → List Char
  | [] => []
  | c :: cs => if isJsonWs c then skipWs cs else c :: cs

/-- Strip trailing JSON whitespace. -/
def trimTrailWs (cs : List Char) : List Char :=
  (skipWs cs.reverse).reverse

/-- Model of JavaScript `String.prototype.trim` (on the ASCII
whitespace the handlers can meet): strip leading and trailing
whitespace. -/
def jsTrim (s : String) : String :=
  String.mk (trimTrailWs (skipWs s.data))

/-- Is a character a decimal digit? -/
def isDigitChar (c : Char) : Bool :=
  48 ≤ c.toNat && c.toNat ≤ 57

/-- Hexadecimal digit value, for `\uXXXX` escapes. -/
def hexVal (c : Char) : Option Nat :=
  let n := c.toNat
  if 48 ≤ n && n ≤ 57 then some (n - 48)
  else if 97 ≤ n && n ≤ 102 then some (n - 87)
  else if 65 ≤ n && n ≤ 70 then some (n - 55)
  else none

/-- Decode a single-character JSON string escape (the code points of
`b`, `f`, `n`, `r`, `t` written numerically). -/
def escChar : Char → Option Char
  | '"' => some '"'
  | '\\' => some '\\'
  | '/' => some '/'
  | 'b' => some (Char.ofNat 8)
  | 'f' => some (Char.ofNat 12)
  | 'n' => some (Char.ofNat 10)
  | 'r' => some (Char.ofNat 13)
  | 't' => some (Char.ofNat 9)
  | _ => none

/-- Parse the remainder of a JSON string literal (the opening quote
already consumed), decoding escapes; unescaped control characters are
syntax errors. -/
def parseJsonStr : List Char → Option (String × List Char)
  | [] => none
  | c :: cs =>
    if c == '"' then some ("", cs)
    else if c == '\\' then
      match cs with
      | [] => none
      | e :: cs2 =>
        if e == 'u' then
          match cs2 with
          | h1 :: h2 :: h3 :: h4 :: cs3 =>
            match hexVal h1, hexVal h2, hexVal h3, hexVal h4 with
            | some a, some b2, some c2, some d2 =>
              match parseJsonStr cs3 with
              | some (s, r) =>
                some (String.mk
                  (Char.ofNat (((a * 16 + b2) * 16 + c2) * 16 + d2) ::
                    s.data), r)
              | none => none
            | _, _, _, _ => none
          | _ => none
        else
          match escChar e with
          | some ec =>
            match parseJsonStr cs2 with
            | some (s, r) => some (String.mk (ec :: s.data), r)
            | none => none
          | none => none
    else if c.toNat < 32 then none
    else
      match parseJsonStr cs with
      | some (s, r) => some (String.mk (c :: s.data), r)
      | none => none

/-- Parse the fractional part of a JSON number (empty if absent); a dot
without digits is a syntax error. -/
def parseFrac (cs : List Char) : Option (List Char × List Char) :=
  match cs with
  | '.' :: r =>
    match r.span isDigitChar with
    | (ds, r2) => if ds.isEmpty then none else some ('.' :: ds, r2)
  | _ => some ([], cs)

/-- Parse the exponent part of a JSON number (empty if absent). -/
def parseExp (cs : List Char) : Option (List Char × List Char) :=
  match cs with
  | c :: r =>
    if c == 'e' || c == 'E' then
      let (sgn, r2) := match r with
        | s :: r3 =>
          if s == '+' || s == '-' then (([s] : List Char), r3) else ([], r)
        | [] => ([], r)
      match r2.span isDigitChar with
      | (ds, r4) => if ds.isEmpty then none else some (c :: (sgn ++ ds), r4)
    else some ([], cs)
  | [] => some ([], cs)

/-- Parse a JSON number literal, returning its exact characters. -/
def parseJsonNum (cs : List Char) : Option (List Char × List Char) :=
  let (sign, cs1) := match cs with
    | '-' :: r => ((['-'] : List Char), r)
    | _ => ([], cs)
  match cs1 with
  | [] => none
  | c :: rest =>
    if c == '0' then
      match parseFrac rest with
      | some (f, cs2) =>
        match parseExp cs2 with
        | some (e, cs3) => some (sign ++ '0' :: (f ++ e), cs3)
        | none => none
      | none => none
    else if isDigitChar c then
      match rest.span isDigitChar with
      | (ds, rest2) =>
        match parseFrac rest2 with
        | some (f, cs2) =>
          match parseExp cs2 with
          | some (e, cs3) => some (sign ++ c :: (ds ++ f ++ e), cs3)
          | none => none
        | none => none
    else none

/-- Expect an exact literal (the tails of `true`, `false`, `null`). -/
def stripLit : List Char → List Char → Option (List Char)
  | [], cs => some cs
  | l :: ls, c :: cs => if c == l then stripLit ls cs else none
  | _ :: _, [] => none

/-- Parser modes: one JSON value, the elements of an array up to `]`
(delivered as a `jArr`), or the members of an object up to the closing
brace (delivered as a `jObj`). -/
inductive JMode where
  | value
  | elems
  | members

/-- Fueled recursive-descent parser for the full JSON grammar. -/
def parseJ : Nat → JMode → List Char → Option (JsonVal × List Char)
  | 0, _, _ => none
  | fuel + 1, .value, cs =>
    match skipWs cs with
    | [] => none
    | c :: rest =>
      if c == '"' then
        match parseJsonStr rest with
        | some (s, r) => some (.jStr s, r)
        | none => none
      else if c == '[' then
        match skipWs rest with
        | ']' :: r => some (.jArr [], r)
        | _ => parseJ fuel .elems rest
      else if c == '\x7b' then
        match skipWs rest with
        | '\x7d' :: r => some (.jObj [], r)
        | _ => parseJ fuel .members rest
      else if c == 't' then
        match stripLit "rue".data rest with
        | some r => some (.jBool true, r)
        | none => none
      else if c == 'f' then
        match stripLit "alse".data rest with
        | some r => some (.jBool false, r)
        | none => none
      else if c == 'n' then
        match stripLit "ull".data rest with
        | some r => some (.jNull, r)
        | none => none
      else if c == '-' || isDigitChar c then
        match parseJsonNum (c :: rest) with
        | some (lit, r) => some (.jNum (String.mk lit), r)
        | none => none
      else none
  | fuel + 1, .elems, cs =>
    match parseJ fuel .value cs with
    | some (v, rem) =>
      match skipWs rem with
      | ',' :: r2 =>
        match parseJ fuel .elems r2 with
        | some (.jArr vs, r3) => some (.jArr (v :: vs), r3)
        | _ => none
      | ']' :: r2 => some (.jArr [v], r2)
      | _ => none
    | none => none
  | fuel + 1, .members, cs =>
    match skipWs cs with
    | '"' :: rest =>
      match parseJsonStr rest with
      | some (k, rem) =>
        match skipWs rem with
        | ':' :: r2 =>
          match parseJ fuel .value r2 with
          | some (v, r3) =>
            match skipWs r3 with
            | ',' :: r4 =>
              match parseJ fuel .members r4 with
              | some (.jObj ms, r5) => some (.jObj ((k, v) :: ms), r5)
              | _ => none
            | '\x7d' :: r4 => some (.jObj [(k, v)], r4)
            | _ => none
          | none => none
        | _ => none
      | none => none
    | _ => none

/-- Model of `JSON.parse`: `none` models a thrown `SyntaxError`.  The
fuel is generous — parsing consumes at most two units per input
character, so it can never run out on an input of this length. -/
def jsonParse (s : String) : Option JsonVal :=
  match parseJ (4 * (s.data.length + 1)) .value s.data with
  | some (v, rem) => if skipWs rem == [] then some v else none
  | none => none

/-- JavaScript truthiness of a parsed JSON value, as `.filter(Boolean)`
sees it: `null`, `false`, numeric zero and the empty string are falsy.
(Zero is read off the literal's mantissa; exponents so extreme that the
double rounds to zero are outside the model, as is `NaN`, which JSON
cannot express.) -/
def jsonTruthy : JsonVal → Bool
  | .jNull => false
  | .jBool b => b
  | .jNum lit =>
    !(((lit.data.takeWhile fun c => !(c == 'e' || c == 'E')).filter
        isDigitChar).all fun c => c == '0')
  | .jStr s => !(s == "")
  | .jArr _ => true
  | .jObj _ => true

/-- An element of the create handler's `ingredientsArray`: a plain
string (from a decoded JSON string, the scalar fallback, or the
native-array / indexed-key forms), the original native array wrapped
whole by the `JSON.parse`-succeeded-yet-not-an-array fallback
`[req.body.ingredients]`, or a non-string element of a decoded JSON
array. -/
inductive Entry where
  | str (s : String)
  | list (xs : List String)
  | json (v : JsonVal)

/-- JavaScript truthiness of an `ingredientsArray` element, as used by
`.filter(Boolean)`. -/
def Entry.truthy : Entry → Bool
  | .str s => !(s == "")
  | .list _ => true
  | .json v => jsonTruthy v

/-- An element of a decoded JSON array as it lands in
`ingredientsArray` (string elements are plain strings at runtime). -/
def entryOfJson : JsonVal → Entry
  | .jStr s => .str s
  | v => .json v

/-- String payload of a plain-string entry; used to discriminate entry
lists concretely. -/
def Entry.tagStr : Entry → Option String
  | .str s => some s
  | _ => none

/-! ## Request bodies and ingredient normalization -/

/-- The parsed multipart body (`req.body`) as the recipe handlers read
it.  `ingredients` is the `ingredients` key itself (absent, a string, or
an array); `pairs` are the remaining body entries, from which the
handlers pick out the indexed keys `ingredients[0]`, `ingredients[1]`,
…  (JavaScript object keys are distinct). -/
structure Body where
  title : Option String := none
  description : Option String := none
  instructions : Option String := none
  category : Option String := none
  cookingTime : Option String := none
  clearImage : Option String := none
  ingredients : Option JSValue := none
  pairs : List (String × String) := []
deriving DecidableEq, Repr

/-- Lexicographic comparison of character lists by code point — the
order `Array.prototype.sort`'s default comparator uses on (ASCII)
strings. -/
def charListLe : List Char → List Char → Bool
  | [], _ => true
  | _ :: _, [] => false
  | a :: as, b :: bs =>
    if a.toNat < b.toNat then true
    else if b.toNat < a.toNat then false
    else charListLe as bs

/-- Lexicographic string comparison (JavaScript's default sort order). -/
def jsStrLe (a b : String) : Bool :=
  charListLe a.data b.data

/-- Key comparison used when the handlers sort the indexed
`ingredients[...]` keys (`Object.keys(req.body).sort()` compares keys
lexicographically). -/
def keyLe (a b : String × String) : Bool :=
  jsStrLe a.1 b.1

/-- The indexed-keys fallback shared by the create and update handlers:
`Object.keys(req.body).filter(k => k.startsWith("ingredients[")).sort()
.map(k => req.body[k])`. -/
def indexedIngredients (pairs : List (String × String)) : List String :=
  (jsSort keyLe (pairs.filter fun kv => jsStartsWith kv.1 "ingredients[")).map
    fun kv => kv.2

/-- Ingredient parsing of the create handler (`POST /`): try
`JSON.parse`; a non-array parse wraps the original value; a thrown parse
falls back to the value as an array or as a singleton; a falsy or absent
`ingredients` key falls back to the indexed keys. -/
def createParseIngredients (b : Body) : List Entry :=
  match b.ingredients with
  | some v =>
    if jsTruthy v then
      match jsonParse (jsToStringValue v) with
      | some (.jArr elems) => elems.map entryOfJson
      | some _ =>
        match v with
        | .vArr xs => [.list xs]
        | .vStr s => [.str s]
      | none =>
        match v with
        | .vArr xs => xs.map .str
        | .vStr s => [.str s]
    else (indexedIngredients b.pairs).map .str
  | none => (indexedIngredients b.pairs).map .str

/-- Ingredient parsing of the update handler (`PUT /:id`): no
`JSON.parse` attempt — a truthy value is used as an array or wrapped as
a singleton, otherwise the indexed keys are collected. -/
def updateParseIngredients (b : Body) : List String :=
  match b.ingredients with
  | some v =>
    if jsTruthy v then
      match v with
      | .vArr xs => xs
      | .vStr s => [s]
    else indexedIngredients b.pairs
  | none => indexedIngredients b.pairs

/-- Outcome of the create handler: a 400 validation failure, or a
persisted recipe carrying the normalized ingredient list
(`ingredientsArray.filter(Boolean)`). -/
inductive CreateResult where
  | badRequest
  | created (ingredients : List Entry)

/-- The create handler (`POST /`), restricted to ingredient parsing,
validation and the persisted ingredient list — the parts the claims
speak about.  Validation happens on the unfiltered `ingredientsArray`;
only the persisted list is filtered (by JavaScript truthiness). -/
def createRecipe (b : Body) : CreateResult :=
  let ingredientsArray := createParseIngredients b
  if !optTruthy b.title || !optTruthy b.instructions || !optTruthy b.category ||
      ingredientsArray.length == 0 then
    .badRequest
  else
    .created (ingredientsArray.filter Entry.truthy)

/-! ## Stored recipes, users, like toggle -/

/-- A stored recipe document.  `image = ""` models both `null` and the
cleared image (both falsy in the handlers). -/
structure Recipe where
  id : String
  title : String := ""
  description : String := ""
  instructions : String := ""
  category : String := ""
  cookingTime : String := ""
  ingredients : List String := []
  image : String := ""
  createdBy : Nat
  likedBy : List Nat := []
deriving DecidableEq, Repr

/-- The authenticated caller attached by the `protect` middleware. -/
structure User where
  id : Nat
  email : String
deriving DecidableEq, Repr

/-- The hard-coded admin sentinel compared against `req.user.email`. -/
def adminEmail : String := "admin@gmail.com"

/-- The like/unlike handler (`POST /:id/like`) on a found recipe:
`findIndex` + `push`/`splice`, then respond with
`{likedByUser: likedIndex === -1, likes: likedBy.length}`.
Returns (saved recipe, reported `likedByUser`, reported `likes`). -/
def likeToggle (recipe : Recipe) (userId : Nat) : Recipe × Bool × Nat :=
  match recipe.likedBy.findIdx? (· == userId) with
  | none =>
    let recipe := { recipe with likedBy := recipe.likedBy ++ [userId] }
    (recipe, true, recipe.likedBy.length)
  | some i =>
    let recipe := { recipe with likedBy := recipe.likedBy.eraseIdx i }
    (recipe, false, recipe.likedBy.length)

/-! ## Update and delete handlers -/

/-- Request environment beyond the body: the uploaded file's URL (if
multer attached a file), whether the Cloudinary configuration is
present, and whether a `cloudinary.uploader.destroy` call succeeds. -/
structure UpdateEnv where
  file : Option String := none
  configOk : Bool := true
  destroyOk : Bool := true
deriving DecidableEq, Repr

/-- Outcome of the update handler.  `notAuthorized`/`serverError` carry
the stored recipe, which is unchanged (the handler returns before
`save`, or throws before `save`). -/
inductive PutResult where
  | notFound
  | notAuthorized (stored : Recipe)
  | serverError (stored : Recipe)
  | ok (saved : Recipe)
deriving DecidableEq, Repr

/-- Apply a truthy body field over the stored value
(`if (req.body.title) recipe.title = req.body.title`). -/
def setIf (cur : String) (v : Option String) : String :=
  match v with
  | some s => if s == "" then cur else s
  | none => cur

/-- The scalar-field and ingredient assignments of the update handler,
after image handling: each field only when truthy, and the ingredient
list only when `ingredientsArray` is non-empty (then filtered by
`i.trim() !== ""`). -/
def applyFields (r : Recipe) (b : Body) (ingredientsArray : List String) :
    Recipe :=
  let r := { r with
    title := setIf r.title b.title,
    description := setIf r.description b.description,
    instructions := setIf r.instructions b.instructions,
    category := setIf r.category b.category,
    cookingTime := setIf r.cookingTime b.cookingTime }
  if ingredientsArray.length > 0 then
    { r with ingredients := ingredientsArray.filter fun i => !(jsTrim i == "") }
  else r

/-- The update handler (`PUT /:id`) on the `findById` result.  Image
handling: a new file replaces the image (the best-effort deletion of the
old image has a `.catch`, so its failure cannot surface); the
`clearImage === "true"` branch deletes without a `.catch`, so a failing
`destroy` throws to the outer handler → `serverError` with the stored
recipe unchanged. -/
def putRecipe (found : Option Recipe) (u : User) (b : Body)
    (env : UpdateEnv) : PutResult :=
  match found with
  | none => .notFound
  | some recipe =>
    let isAdmin := u.email == adminEmail
    let isOwner := recipe.createdBy == u.id
    if !isAdmin && !isOwner then .notAuthorized recipe
    else
      let ingredientsArray := updateParseIngredients b
      match env.file with
      | some newImageUrl =>
        if !(newImageUrl == "") then
          .ok (applyFields { recipe with image := newImageUrl } b
            ingredientsArray)
        else
          .ok (applyFields recipe b ingredientsArray)
      | none =>
        if b.clearImage == some "true" then
          if !(recipe.image == "") && env.configOk && !env.destroyOk then
            .serverError recipe
          else
            .ok (applyFields { recipe with image := "" } b ingredientsArray)
        else
          .ok (applyFields recipe b ingredientsArray)

/-- Outcome of the delete handler. -/
inductive DeleteResult where
  | notFound
  | notAuthorized (stored : Recipe)
  | serverError (stored : Recipe)
  | deleted
deriving DecidableEq, Repr

/-- The delete handler (`DELETE /:id`) on the `findById` result: auth
check, then an un-`catch`ed best-effort image deletion (a failing
`destroy` throws before `deleteOne`, leaving the recipe stored), then
removal. -/
def deleteRecipe (found : Option Recipe) (u : User) (env : UpdateEnv) :
    DeleteResult :=
  match found with
  | none => .notFound
  | some recipe =>
    let isAdmin := u.email == adminEmail
    let isOwner := recipe.createdBy == u.id
    if !isAdmin && !isOwner then .notAuthorized recipe
    else if !(recipe.image == "") && env.configOk && !env.destroyOk then
      .serverError recipe
    else .deleted

/-! ## Routes on raw ids (`mongoose.Types.ObjectId` casting) -/

/-- Is a character a hexadecimal digit? -/
def isHexChar (c : Char) : Bool :=
  isDigitChar c || ('a' ≤ c && c ≤ 'f') || ('A' ≤ c && c ≤ 'F')

/-- Model of `mongoose.Types.ObjectId.isValid` on strings: a 24-char
hex string or a 12-char string. -/
def isValidObjectId (s : String) : Bool :=
  (s.length == 24 && s.data.all isHexChar) || s.length == 12

/-- Model of `Recipe.findById(id)`: a malformed id makes the cast throw
(`Except.error`), otherwise the matching document (if any) is found. -/
def tryFindById (db : List Recipe) (id : String) :
    Except Unit (Option Recipe) :=
  if isValidObjectId id then .ok (db.find? fun r => r.id == id)
  else .error ()

/-- HTTP status of `GET /:id`: this route validates the id before the
lookup and answers 400 on a malformed id. -/
def getByIdStatus (db : List Recipe) (id : String) : Nat :=
  if !isValidObjectId id then 400
  else
    match db.find? fun r => r.id == id with
    | none => 404
    | some _ => 200

/-- HTTP status of `POST /:id/like`: no id validation, so a malformed
id throws inside `findById` and the catch-all answers 500. -/
def likeStatus (db : List Recipe) (id : String) (u : User) : Nat :=
  match tryFindById db id with
  | .error _ => 500
  | .ok none => 404
  | .ok (some r) =>
    match likeToggle r u.id with
    | _ => 200

/-- HTTP status of `PUT /:id`: no id validation (500 on malformed id). -/
def putStatus (db : List Recipe) (id : String) (u : User) (b : Body)
    (env : UpdateEnv) : Nat :=
  match tryFindById db id with
  | .error _ => 500
  | .ok found =>
    match putRecipe found u b env with
    | .notFound => 404
    | .notAuthorized _ => 401
    | .serverError _ => 500
    | .ok _ => 200

/-- HTTP status of `DELETE /:id`: no id validation (500 on malformed
id). -/
def deleteStatus (db : List Recipe) (id : String) (u : User)
    (env : UpdateEnv) : Nat :=
  match tryFindById db id with
  | .error _ => 500
  | .ok found =>
    match deleteRecipe found u env with
    | .notFound => 404
    | .notAuthorized _ => 401
    | .serverError _ => 500
    | .deleted => 200

/-! ## Payload constructors and sample data used by the claim theorems -/

/-- A body carrying only an `ingredients` value. -/
def ingOnlyBody (v : JSValue) : Body :=
  { ingredients := some v }

/-- A body carrying `vs` under indexed keys `ingredients[0]`,
`ingredients[1]`, … (the fourth encoding). -/
def indexedBody (vs : List String) : Body :=
  { pairs := (List.range vs.length).map fun i =>
      ("ingredients[" ++ Nat.repr i ++ "]", vs.getD i "") }

/-- Eleven ingredient values, for the indexed-key order counterexample. -/
def elevenVals : List String :=
  ["v0", "v1", "v2", "v3", "v4", "v5", "v6", "v7", "v8", "v9", "v10"]

/-- A fully valid create body. -/
def goodBody : Body :=
  { title := some "Pasta", instructions := some "Boil.",
    category := some "Dinner",
    ingredients := some (.vStr "[\"pasta\",\"salt\"]") }

/-- A create body whose only ingredient is the blank string. -/
def blankIngredientsBody : Body :=
  { title := some "T", instructions := some "I", category := some "C",
    ingredients := some (.vStr "[\"\"]") }

/-- A body whose `ingredients` value is a JSON-encoded array string. -/
def jsonArrayBody : Body :=
  { ingredients := some (.vStr "[\"a\",\"b\"]") }

/-- A body whose `ingredients` value is a native two-element array. -/
def nativeArrayBody : Body :=
  { ingredients := some (.vArr ["a", "b"]) }

/-- A body whose `ingredients` value is the empty string (as an empty
multipart field arrives). -/
def emptyStrIngredientsBody : Body :=
  { ingredients := some (.vStr "") }

/-- A body whose `ingredients` entries are all blank. -/
def allBlankArrayBody : Body :=
  { ingredients := some (.vArr [" ", ""]) }

/-- The owner of the sample recipes below. -/
def ownerUser : User :=
  { id := 5, email := "owner@example.com" }

/-- A stored recipe with a non-empty ingredient list. -/
def oldIngredientsRecipe : Recipe :=
  { id := "r8", ingredients := ["old"], createdBy := 5 }

/-- `oldIngredientsRecipe` after its ingredient list is cleared. -/
def clearedRecipe : Recipe :=
  { oldIngredientsRecipe with ingredients := [] }

/-- A stored recipe holding an image reference. -/
def imageRecipe : Recipe :=
  { id := "r9", image := "http://img/x.png", createdBy := 5 }

/-- An environment in which the Cloudinary `destroy` call fails. -/
def failEnv : UpdateEnv :=
  { destroyOk := false }

/-- A concrete stored recipe with two likers. -/
def likedRecipe : Recipe :=
  { id := "64b1f0a1c2d3e4f5a6b7c8d9", title := "Pasta",
    instructions := "Boil.", category := "Dinner",
    ingredients := ["pasta", "salt"], createdBy := 7, likedBy := [1, 2] }

/-! ## Helper lemmas about the like toggle -/

lemma findIdx_beq_none_iff (l : List Nat) (u : Nat) :
    l.findIdx? (· == u) = none ↔ u ∉ l := by
  rw [List.findIdx?_eq_none_iff]
  constructor
  · intro h hu
    have := h u hu
    simp at this
  · intro hu x hx
    simp only [beq_eq_false_iff_ne, ne_eq]
    intro he
    exact hu (he ▸ hx)

lemma eraseIdx_findIdx_beq (l : List Nat) (u : Nat) :
    ∀ i, l.findIdx? (· == u) = some i → l.eraseIdx i = l.erase u := by
  induction l with
  | nil => intro i h; simp at h
  | cons a l ih =>
    intro i h
    rw [List.findIdx?_cons] at h
    by_cases hau : (a == u) = true
    · rw [if_pos hau] at h
      cases h
      simp [List.eraseIdx, List.erase_cons, hau]
    · rw [if_neg hau, List.findIdx?_succ] at h
      rcases Option.map_eq_some'.mp h with ⟨j, hj, rfl⟩
      simp only [List.eraseIdx_cons_succ, List.erase_cons, hau, if_neg]
      rw [ih j hj]
      simp [hau]

lemma likeToggle_likedBy (r : Recipe) (u : Nat) :
    (likeToggle r u).1.likedBy =
      if u ∈ r.likedBy then r.likedBy.erase u else r.likedBy ++ [u] := by
  unfold likeToggle
  cases h : r.likedBy.findIdx? (· == u) with
  | none =>
    have hm := (findIdx_beq_none_iff _ u).mp h
    simp [hm]
  | some i =>
    have hmem : u ∈ r.likedBy := by
      by_contra hu
      rw [(findIdx_beq_none_iff _ u).mpr hu] at h
      cases h
    simp [hmem, eraseIdx_findIdx_beq _ u i h]

lemma likeToggle_bool (r : Recipe) (u : Nat) :
    (likeToggle r u).2.1 = decide (u ∉ r.likedBy) := by
  unfold likeToggle
  cases h : r.likedBy.findIdx? (· == u) with
  | none =>
    have hm := (findIdx_beq_none_iff _ u).mp h
    simp [hm]
  | some i =>
    have hmem : u ∈ r.likedBy := by
      by_contra hu
      rw [(findIdx_beq_none_iff _ u).mpr hu] at h
      cases h
    simp [hmem]

lemma likeToggle_count (r : Recipe) (u : Nat) :
    (likeToggle r u).2.2 = (likeToggle r u).1.likedBy.length := by
  unfold likeToggle
  cases h : r.likedBy.findIdx? (· == u) <;> simp

lemma likeToggle_nodup (r : Recipe) (u : Nat) (h : r.likedBy.Nodup) :
    (likeToggle r u).1.likedBy.Nodup := by
  rw [likeToggle_likedBy]
  by_cases hm : u ∈ r.likedBy
  · rw [if_pos hm]
    exact h.erase u
  · rw [if_neg hm]
    simp [List.nodup_append, h, hm]

/-! ## Claims about the like toggle -/

/-- C2: on an existing recipe whose `likedBy` is duplicate-free (the
data model's set invariant), the like toggle removes the caller's id
and reports `likedByUser = false` when the id was a member, adds it and
reports `true` otherwise; the reported `likes` equals the length of the
persisted `likedBy`, which remains duplicate-free (so the length is the
size of the set). -/
theorem like_toggle_spec (r : Recipe) (u : Nat) (h : r.likedBy.Nodup) :
    (u ∈ r.likedBy →
      (likeToggle r u).1.likedBy = r.likedBy.erase u ∧
      u ∉ (likeToggle r u).1.likedBy ∧ (likeToggle r u).2.1 = false) ∧
    (u ∉ r.likedBy →
      (likeToggle r u).1.likedBy = r.likedBy ++ [u] ∧
      u ∈ (likeToggle r u).1.likedBy ∧ (likeToggle r u).2.1 = true) ∧
    (likeToggle r u).2.2 = (likeToggle r u).1.likedBy.length ∧
    (likeToggle r u).1.likedBy.Nodup := by
  refine ⟨?_, ?_, likeToggle_count r u, likeToggle_nodup r u h⟩
  · intro hm
    rw [likeToggle_likedBy, likeToggle_bool, if_pos hm]
    exact ⟨rfl, h.not_mem_erase, by simp [hm]⟩
  · intro hm
    rw [likeToggle_likedBy, likeToggle_bool, if_neg hm]
    exact ⟨rfl, by simp, by simp [hm]⟩

/-- Witness for C2: the toggle at the concrete recipe `likedRecipe`
(likers `[1, 2]`) for caller 1. -/
theorem like_toggle_spec_witness :
    likedRecipe.likedBy.Nodup ∧
      ((1 ∈ likedRecipe.likedBy →
        (likeToggle likedRecipe 1).1.likedBy = likedRecipe.likedBy.erase 1 ∧
        1 ∉ (likeToggle likedRecipe 1).1.likedBy ∧
        (likeToggle likedRecipe 1).2.1 = false) ∧
      (1 ∉ likedRecipe.likedBy →
        (likeToggle likedRecipe 1).1.likedBy = likedRecipe.likedBy ++ [1] ∧
        1 ∈ (likeToggle likedRecipe 1).1.likedBy ∧
        (likeToggle likedRecipe 1).2.1 = true) ∧
      (likeToggle likedRecipe 1).2.2 =
        (likeToggle likedRecipe 1).1.likedBy.length ∧
      (likeToggle likedRecipe 1).1.likedBy.Nodup) :=
  ⟨by decide, like_toggle_spec likedRecipe 1 (by decide)⟩

/-- C3: under the duplicate-free invariant, toggling twice restores the
`likedBy` membership and count, and the second response reports the
original `likedByUser`/`likes` values. -/
theorem like_toggle_involution (r : Recipe) (u : Nat)
    (h : r.likedBy.Nodup) :
    (∀ x, x ∈ (likeToggle (likeToggle r u).1 u).1.likedBy ↔
        x ∈ r.likedBy) ∧
    (likeToggle (likeToggle r u).1 u).1.likedBy.length =
      r.likedBy.length ∧
    (likeToggle (likeToggle r u).1 u).2.1 = decide (u ∈ r.likedBy) ∧
    (likeToggle (likeToggle r u).1 u).2.2 = r.likedBy.length := by
  have hcount := likeToggle_count (likeToggle r u).1 u
  by_cases hm : u ∈ r.likedBy
  · have h1 : (likeToggle r u).1.likedBy = r.likedBy.erase u := by
      rw [likeToggle_likedBy, if_pos hm]
    have hnot : u ∉ (likeToggle r u).1.likedBy := by
      rw [h1]; exact h.not_mem_erase
    have h2 : (likeToggle (likeToggle r u).1 u).1.likedBy =
        r.likedBy.erase u ++ [u] := by
      rw [likeToggle_likedBy, if_neg hnot, h1]
    have hlen : (r.likedBy.erase u).length + 1 = r.likedBy.length := by
      rw [List.length_erase_of_mem hm]
      have := List.length_pos_of_mem hm
      omega
    refine ⟨?_, ?_, ?_, ?_⟩
    · intro x
      rw [h2]
      by_cases hx : x = u
      · subst hx; simp [hm]
      · simp only [List.mem_append, List.mem_singleton, hx, or_false]
        exact List.mem_erase_of_ne hx
    · rw [h2, List.length_append]
      simpa using hlen
    · rw [likeToggle_bool]
      simp [hnot, hm]
    · rw [hcount, h2, List.length_append]
      simpa using hlen
  · have h1 : (likeToggle r u).1.likedBy = r.likedBy ++ [u] := by
      rw [likeToggle_likedBy, if_neg hm]
    have hin : u ∈ (likeToggle r u).1.likedBy := by rw [h1]; simp
    have h2 : (likeToggle (likeToggle r u).1 u).1.likedBy = r.likedBy := by
      rw [likeToggle_likedBy, if_pos hin, h1,
        List.erase_append_right _ hm]
      simp [List.erase_cons]
    refine ⟨?_, ?_, ?_, ?_⟩
    · intro x; rw [h2]
    · rw [h2]
    · rw [likeToggle_bool]
      simp [hin, hm]
    · rw [hcount, h2]

/-- Witness for C3: double toggle at `likedRecipe` for caller 1. -/
theorem like_toggle_involution_witness :
    likedRecipe.likedBy.Nodup ∧
      ((∀ x, x ∈ (likeToggle (likeToggle likedRecipe 1).1 1).1.likedBy ↔
          x ∈ likedRecipe.likedBy) ∧
      (likeToggle (likeToggle likedRecipe 1).1 1).1.likedBy.length =
        likedRecipe.likedBy.length ∧
      (likeToggle (likeToggle likedRecipe 1).1 1).2.1 =
        decide (1 ∈ likedRecipe.likedBy) ∧
      (likeToggle (likeToggle likedRecipe 1).1 1).2.2 =
        likedRecipe.likedBy.length) :=
  ⟨by decide, like_toggle_involution likedRecipe 1 (by decide)⟩

/-- C4: the like toggle preserves the no-duplicates invariant of
`likedBy` — a user id can never be double-inserted. -/
theorem likedBy_nodup_preserved (r : Recipe) (u : Nat)
    (h : r.likedBy.Nodup) : (likeToggle r u).1.likedBy.Nodup :=
  likeToggle_nodup r u h

/-- Witness for C4 at `likedRecipe` and a fresh caller 3. -/
theorem likedBy_nodup_preserved_witness :
    likedRecipe.likedBy.Nodup ∧ (likeToggle likedRecipe 3).1.likedBy.Nodup :=
  ⟨by decide, likedBy_nodup_preserved likedRecipe 3 (by decide)⟩

/-! ## Authorization (C1) -/

lemma authGuard_true_iff (r : Recipe) (u : User) :
    (!(u.email == adminEmail) && !(r.createdBy == u.id)) = true ↔
      ¬(u.id = r.createdBy ∨ u.email = adminEmail) := by
  simp only [Bool.and_eq_true, Bool.not_eq_true', beq_eq_false_iff_ne,
    ne_eq, not_or]
  constructor
  · rintro ⟨he, ho⟩
    exact ⟨fun hid => ho hid.symm, he⟩
  · rintro ⟨ho, he⟩
    exact ⟨he, fun hid => ho hid.symm⟩

lemma putRecipe_ok_of_auth (r : Recipe) (u : User) (b : Body)
    (env : UpdateEnv)
    (hg : (!(u.email == adminEmail) && !(r.createdBy == u.id)) = false)
    (hdok : env.destroyOk = true) :
    ∃ r', putRecipe (some r) u b env = .ok r' := by
  simp only [putRecipe, hg, Bool.false_eq_true, if_false]
  cases env.file with
  | some url =>
    by_cases hu : (url == "") = true
    · simp [hu]
    · simp [hu]
  | none =>
    by_cases hc : (b.clearImage == some "true") = true
    · simp [hc, hdok]
    · simp [hc]

lemma deleteRecipe_deleted_of_auth (r : Recipe) (u : User)
    (env : UpdateEnv)
    (hg : (!(u.email == adminEmail) && !(r.createdBy == u.id)) = false)
    (hdok : env.destroyOk = true) :
    deleteRecipe (some r) u env = .deleted := by
  simp [deleteRecipe, hg, hdok]

/-- C1: on an existing recipe, update and delete succeed only for the
owner or the admin sentinel; any other authenticated caller is answered
with the 401 result carrying the unchanged stored recipe; and the admin
sentinel (like any authorized caller) gets a success whenever the
best-effort image deletion does not throw (`destroyOk`), regardless of
ownership. -/
theorem update_delete_owner_or_admin (r : Recipe) (u : User) (b : Body)
    (env : UpdateEnv) :
    ((∃ r', putRecipe (some r) u b env = .ok r') →
      u.id = r.createdBy ∨ u.email = adminEmail) ∧
    (deleteRecipe (some r) u env = .deleted →
      u.id = r.createdBy ∨ u.email = adminEmail) ∧
    (¬(u.id = r.createdBy ∨ u.email = adminEmail) →
      putRecipe (some r) u b env = .notAuthorized r ∧
      deleteRecipe (some r) u env = .notAuthorized r) ∧
    (u.email = adminEmail → env.destroyOk = true →
      (∃ r', putRecipe (some r) u b env = .ok r') ∧
      deleteRecipe (some r) u env = .deleted) := by
  by_cases hAuth : u.id = r.createdBy ∨ u.email = adminEmail
  · have hg : (!(u.email == adminEmail) && !(r.createdBy == u.id)) = false := by
      rw [← Bool.not_eq_true, authGuard_true_iff]
      exact not_not_intro hAuth
    exact ⟨fun _ => hAuth, fun _ => hAuth, fun hc => absurd hAuth hc,
      fun _ hdok => ⟨putRecipe_ok_of_auth r u b env hg hdok,
        deleteRecipe_deleted_of_auth r u env hg hdok⟩⟩
  · have hg : (!(u.email == adminEmail) && !(r.createdBy == u.id)) = true :=
      (authGuard_true_iff r u).mpr hAuth
    refine ⟨?_, ?_, fun _ => ⟨by simp [putRecipe, hg], by simp [deleteRecipe, hg]⟩,
      fun hadmin => absurd (Or.inr hadmin) hAuth⟩
    · rintro ⟨r', hr'⟩
      rw [show putRecipe (some r) u b env = .notAuthorized r by
        simp [putRecipe, hg]] at hr'
      cases hr'
    · intro hdel
      rw [show deleteRecipe (some r) u env = .notAuthorized r by
        simp [deleteRecipe, hg]] at hdel
      cases hdel

/-- Witness for C1: a non-owner, non-admin caller (id 9) against
`likedRecipe` (owner 7), plus the admin sentinel as caller. -/
theorem update_delete_owner_or_admin_witness :
    (¬((9 : Nat) = likedRecipe.createdBy ∨ "someone@gmail.com" = adminEmail) →
      putRecipe (some likedRecipe) ⟨9, "someone@gmail.com"⟩ {} {} =
        .notAuthorized likedRecipe ∧
      deleteRecipe (some likedRecipe) ⟨9, "someone@gmail.com"⟩ {} =
        .notAuthorized likedRecipe) ∧
    ("admin@gmail.com" = adminEmail → ({} : UpdateEnv).destroyOk = true →
      (∃ r', putRecipe (some likedRecipe) ⟨9, "admin@gmail.com"⟩ {} {} =
        .ok r') ∧
      deleteRecipe (some likedRecipe) ⟨9, "admin@gmail.com"⟩ {} = .deleted) :=
  ⟨(update_delete_owner_or_admin likedRecipe ⟨9, "someone@gmail.com"⟩ {} {}).2.2.1,
   (update_delete_owner_or_admin likedRecipe ⟨9, "admin@gmail.com"⟩ {} {}).2.2.2⟩

/-! ## Malformed ids (C10) -/

/-- C10: only `GET /:id` validates the id format (answering 400); a
malformed id sent to the like, update or delete route makes the lookup
throw and the handler answer 500. -/
theorem malformed_id_statuses (db : List Recipe) (id : String) (u : User)
    (b : Body) (env : UpdateEnv) (h : isValidObjectId id = false) :
    getByIdStatus db id = 400 ∧ likeStatus db id u = 500 ∧
    putStatus db id u b env = 500 ∧ deleteStatus db id u env = 500 := by
  have ht : tryFindById db id = .error () := by
    simp [tryFindById, h]
  exact ⟨by simp [getByIdStatus, h], by simp [likeStatus, ht],
    by simp [putStatus, ht], by simp [deleteStatus, ht]⟩

/-- Witness for C10 at the malformed id `"nope"`. -/
theorem malformed_id_statuses_witness :
    isValidObjectId "nope" = false ∧
      (getByIdStatus [likedRecipe] "nope" = 400 ∧
      likeStatus [likedRecipe] "nope" ⟨1, "a@b.c"⟩ = 500 ∧
      putStatus [likedRecipe] "nope" ⟨1, "a@b.c"⟩ {} {} = 500 ∧
      deleteStatus [likedRecipe] "nope" ⟨1, "a@b.c"⟩ {} = 500) :=
  ⟨by decide,
   malformed_id_statuses [likedRecipe] "nope" ⟨1, "a@b.c"⟩ {} {} (by decide)⟩

/-! ## Create validation (C6) -/

/-- Counterexample for C6: a create request whose ingredients consist
only of the blank string (`'[""]'`) is not rejected — validation checks
the unfiltered array's length, so the recipe is persisted with an empty
ingredient list. -/
theorem create_validation_cex :
    createParseIngredients blankIngredientsBody = [.str ""] ∧
    createRecipe blankIngredientsBody = .created [] := by
  constructor <;> rfl

/-- C6 amended: create fails with 400 iff `title`, `instructions` or
`category` is missing/empty or the parsed ingredient array is empty;
a non-empty all-blank ingredient list passes validation and is
persisted filtered by JavaScript truthiness (only `""` entries are
dropped); on success the persisted list is exactly the filtered parse,
and a 400 persists nothing. -/
theorem create_validation_amended (b : Body) :
    (createRecipe b = .badRequest ↔
      (optTruthy b.title = false ∨ optTruthy b.instructions = false ∨
        optTruthy b.category = false ∨ createParseIngredients b = [])) ∧
    (∀ l, createRecipe b = .created l →
      l = (createParseIngredients b).filter Entry.truthy) := by
  simp only [createRecipe]
  by_cases hg : (!optTruthy b.title || !optTruthy b.instructions ||
      !optTruthy b.category ||
      ((createParseIngredients b).length == 0)) = true
  · rw [if_pos hg]
    refine ⟨⟨fun _ => ?_, fun _ => rfl⟩, fun l hl => by cases hl⟩
    simpa [Bool.or_eq_true, Bool.not_eq_true', List.length_eq_zero,
      or_assoc] using hg
  · rw [if_neg hg]
    constructor
    · constructor
      · intro h
        cases h
      · intro hd
        exfalso
        apply hg
        simpa [Bool.or_eq_true, Bool.not_eq_true', List.length_eq_zero,
          or_assoc] using hd
    · intro l hl
      injection hl with h
      exact h.symm

/-- Witness for C6 (amended) at the valid body `goodBody`. -/
theorem create_validation_amended_witness :
    (createRecipe goodBody = .badRequest ↔
      (optTruthy goodBody.title = false ∨
        optTruthy goodBody.instructions = false ∨
        optTruthy goodBody.category = false ∨
        createParseIngredients goodBody = [])) ∧
    (∀ l, createRecipe goodBody = .created l →
      l = (createParseIngredients goodBody).filter Entry.truthy) :=
  create_validation_amended goodBody

/-! ## Create vs update ingredient normalization (C7) -/

/-- Counterexample for C7: on a JSON-encoded array payload the create
handler decodes it while the update handler wraps the raw string, so
the two normalizations disagree. -/
theorem update_create_normalization_cex :
    createParseIngredients jsonArrayBody = [.str "a", .str "b"] ∧
    updateParseIngredients jsonArrayBody = ["[\"a\",\"b\"]"] ∧
    createParseIngredients jsonArrayBody ≠
      (updateParseIngredients jsonArrayBody).map Entry.str := by
  refine ⟨rfl, rfl, fun h => ?_⟩
  exact absurd (congrArg (List.map Entry.tagStr) h) (by decide)

/-- C7 amended: the two normalizations agree on every payload whose
`ingredients` value is absent, falsy, a set of indexed keys, a scalar
string that does not parse as a JSON array, or a native array whose
comma-joined string is not valid JSON; on values `JSON.parse` accepts
the handlers can disagree — a JSON-encoded array string is decoded by
create but wrapped verbatim by update. -/
theorem update_create_normalization_amended (b : Body)
    (hstr : ∀ s, b.ingredients = some (.vStr s) →
      ∀ ys, jsonParse s ≠ some (.jArr ys))
    (harr : ∀ xs, b.ingredients = some (.vArr xs) →
      jsonParse (String.intercalate "," xs) = none) :
    createParseIngredients b = (updateParseIngredients b).map Entry.str := by
  cases hi : b.ingredients with
  | none => simp [createParseIngredients, updateParseIngredients, hi]
  | some v =>
    by_cases ht : jsTruthy v = true
    · cases v with
      | vStr s =>
        cases hj : jsonParse s with
        | none =>
          simp [createParseIngredients, updateParseIngredients, hi, ht,
            hj, jsToStringValue]
        | some jv =>
          cases jv with
          | jArr ys => exact absurd hj (hstr s hi ys)
          | jNull =>
            simp [createParseIngredients, updateParseIngredients, hi, ht,
              hj, jsToStringValue]
          | jBool bb =>
            simp [createParseIngredients, updateParseIngredients, hi, ht,
              hj, jsToStringValue]
          | jNum lit =>
            simp [createParseIngredients, updateParseIngredients, hi, ht,
              hj, jsToStringValue]
          | jStr t =>
            simp [createParseIngredients, updateParseIngredients, hi, ht,
              hj, jsToStringValue]
          | jObj ms =>
            simp [createParseIngredients, updateParseIngredients, hi, ht,
              hj, jsToStringValue]
      | vArr xs =>
        have hj := harr xs hi
        simp [createParseIngredients, updateParseIngredients, hi, ht, hj,
          jsToStringValue]
    · simp [createParseIngredients, updateParseIngredients, hi, ht]

/-- Witness for C7 (amended): the native-array payload, whose
comma-joined string is not valid JSON. -/
theorem update_create_normalization_amended_witness :
    (∀ s, nativeArrayBody.ingredients = some (.vStr s) →
      ∀ ys, jsonParse s ≠ some (.jArr ys)) ∧
    (∀ xs, nativeArrayBody.ingredients = some (.vArr xs) →
      jsonParse (String.intercalate "," xs) = none) ∧
    createParseIngredients nativeArrayBody =
      (updateParseIngredients nativeArrayBody).map Entry.str := by
  have h1 : ∀ s, nativeArrayBody.ingredients = some (.vStr s) →
      ∀ ys, jsonParse s ≠ some (.jArr ys) := by
    intro s hv
    rw [show nativeArrayBody.ingredients = some (.vArr ["a", "b"]) from rfl]
      at hv
    cases hv
  have h2 : ∀ xs, nativeArrayBody.ingredients = some (.vArr xs) →
      jsonParse (String.intercalate "," xs) = none := by
    intro xs hv
    rw [show nativeArrayBody.ingredients = some (.vArr ["a", "b"]) from rfl]
      at hv
    cases hv
    rfl
  exact ⟨h1, h2, update_create_normalization_amended nativeArrayBody h1 h2⟩

/-! ## Update frame effect on ingredients (C8) -/

lemma applyFields_ingredients (r : Recipe) (b : Body) (ia : List String) :
    (applyFields r b ia).ingredients =
      if ia.length > 0 then ia.filter (fun i => !(jsTrim i == ""))
      else r.ingredients := by
  unfold applyFields
  by_cases h : ia.length > 0
  · simp [h]
  · simp [h]

lemma putRecipe_ok_shape (r : Recipe) (u : User) (b : Body)
    (env : UpdateEnv) (r' : Recipe)
    (hok : putRecipe (some r) u b env = .ok r') :
    ∃ img, r' =
      applyFields { r with image := img } b (updateParseIngredients b) := by
  simp only [putRecipe] at hok
  split at hok
  · cases hok
  · split at hok
    · split at hok
      · injection hok with h
        exact ⟨_, h.symm⟩
      · injection hok with h
        exact ⟨r.image, h.symm⟩
    · split at hok
      · split at hok
        · cases hok
        · injection hok with h
          exact ⟨"", h.symm⟩
      · injection hok with h
        exact ⟨r.image, h.symm⟩

/-- Counterexample for C8: an update request that does contain an
`ingredients` key holding the blank string — whose entries are
therefore all blank — leaves the stored ingredient list unchanged
instead of setting it to the filtered (empty) sequence: the empty
string is falsy, so the handler falls through to the (empty) indexed
scan and skips the assignment. -/
theorem update_frame_cex :
    putRecipe (some oldIngredientsRecipe) ownerUser emptyStrIngredientsBody
        {} = .ok oldIngredientsRecipe ∧
    oldIngredientsRecipe.ingredients = ["old"] := by
  constructor <;> rfl

/-- C8 amended: for an authorized update, an absent `ingredients` key
together with no indexed keys leaves stored ingredients unchanged; more
generally whenever the parsed ingredient array is empty (including the
falsy `""` value and the empty array) the field is untouched, and
whenever it is non-empty with all entries blank the field is set to the
filtered (empty) list. -/
theorem update_frame_amended (r : Recipe) (u : User) (b : Body)
    (env : UpdateEnv) (r' : Recipe)
    (hok : putRecipe (some r) u b env = .ok r') :
    (b.ingredients = none →
      (∀ kv ∈ b.pairs, jsStartsWith kv.1 "ingredients[" = false) →
      r'.ingredients = r.ingredients) ∧
    (updateParseIngredients b = [] → r'.ingredients = r.ingredients) ∧
    (updateParseIngredients b ≠ [] →
      r'.ingredients =
        (updateParseIngredients b).filter fun i => !(jsTrim i == "")) := by
  rcases putRecipe_ok_shape r u b env r' hok with ⟨img, rfl⟩
  rw [applyFields_ingredients]
  have hframe : updateParseIngredients b = [] →
      (if (updateParseIngredients b).length > 0 then
        (updateParseIngredients b).filter (fun i => !(jsTrim i == ""))
      else ({ r with image := img } : Recipe).ingredients) =
        r.ingredients := by
    intro h0
    rw [h0]
    simp
  refine ⟨fun hnone hkeys => ?_, hframe, fun hne => ?_⟩
  · apply hframe
    unfold updateParseIngredients
    rw [hnone]
    unfold indexedIngredients
    rw [List.filter_eq_nil_iff.mpr (by simpa using hkeys)]
    rfl
  · have hpos : (updateParseIngredients b).length > 0 :=
      List.length_pos.mpr hne
    rw [if_pos hpos]

/-- Witness for C8 (amended): an authorized update whose `ingredients`
value is a native array of blank strings clears the stored list. -/
theorem update_frame_amended_witness :
    putRecipe (some oldIngredientsRecipe) ownerUser allBlankArrayBody {} =
      .ok clearedRecipe ∧
    updateParseIngredients allBlankArrayBody ≠ [] ∧
    clearedRecipe.ingredients =
      (updateParseIngredients allBlankArrayBody).filter
        fun i => !(jsTrim i == "") := by
  refine ⟨by decide, by decide, ?_⟩
  exact (update_frame_amended oldIngredientsRecipe ownerUser
    allBlankArrayBody {} clearedRecipe (by decide)).2.2 (by decide)

/-! ## Media Sidecar deletion failures (C9) -/

/-- Counterexample for C9: with an image present, the Cloudinary
configuration active and a failing `destroy`, both the delete route and
the clear-image update abort with a 500 (the `destroy` call in these
paths has no `.catch`), leaving the recipe stored — the deletion
failure does prevent the operation from completing. -/
theorem sidecar_deletion_cex :
    deleteRecipe (some imageRecipe) ownerUser failEnv =
      .serverError imageRecipe ∧
    putRecipe (some imageRecipe) ownerUser { clearImage := some "true" }
        failEnv = .serverError imageRecipe := by
  constructor <;> rfl

/-- C9 amended: for an authorized caller on an existing recipe, the
old-image deletion failure is swallowed only in the new-file update
path (which always reaches its success response); in the clear-image
update path and in the delete route a failing `destroy` aborts with a
500 server error and the stored recipe is untouched, and those two
paths succeed whenever no image deletion is attempted or the deletion
succeeds. -/
theorem sidecar_deletion_amended (r : Recipe) (u : User) (b : Body)
    (env : UpdateEnv)
    (hauth : u.id = r.createdBy ∨ u.email = adminEmail) :
    (∀ url, env.file = some url →
      ∃ r', putRecipe (some r) u b env = .ok r') ∧
    (env.file = none → b.clearImage = some "true" → r.image ≠ "" →
      env.configOk = true → env.destroyOk = false →
      putRecipe (some r) u b env = .serverError r) ∧
    (env.file = none → b.clearImage = some "true" →
      (r.image = "" ∨ env.configOk = false ∨ env.destroyOk = true) →
      ∃ r', putRecipe (some r) u b env = .ok r') ∧
    (r.image ≠ "" → env.configOk = true → env.destroyOk = false →
      deleteRecipe (some r) u env = .serverError r) ∧
    ((r.image = "" ∨ env.configOk = false ∨ env.destroyOk = true) →
      deleteRecipe (some r) u env = .deleted) := by
  have hg : (!(u.email == adminEmail) && !(r.createdBy == u.id)) = false := by
    rw [← Bool.not_eq_true, authGuard_true_iff]
    exact not_not_intro hauth
  refine ⟨?_, ?_, ?_, ?_, ?_⟩
  · intro url hf
    simp only [putRecipe, hg, Bool.false_eq_true, if_false, hf]
    by_cases hu : (url == "") = true
    · simp [hu]
    · simp [hu]
  · intro hf hc him hcfg hd
    have himb : (r.image == "") = false := by simp [him]
    simp [putRecipe, hg, hf, hc, himb, hcfg, hd]
  · intro hf hc hcase
    rcases hcase with him | hcfg | hd
    · simp [putRecipe, hg, hf, hc, him]
    · simp [putRecipe, hg, hf, hc, hcfg]
    · simp [putRecipe, hg, hf, hc, hd]
  · intro him hcfg hd
    have himb : (r.image == "") = false := by simp [him]
    simp [deleteRecipe, hg, himb, hcfg, hd]
  · intro hcase
    rcases hcase with him | hcfg | hd
    · simp [deleteRecipe, hg, him]
    · simp [deleteRecipe, hg, hcfg]
    · simp [deleteRecipe, hg, hd]

/-- Witness for C9 (amended): the owner clears `imageRecipe`'s image
and deletes `imageRecipe` in an environment whose `destroy`
succeeds. -/
theorem sidecar_deletion_amended_witness :
    (ownerUser.id = imageRecipe.createdBy ∨ ownerUser.email = adminEmail) ∧
    (∃ r', putRecipe (some imageRecipe) ownerUser
      { clearImage := some "true" } {} = .ok r') ∧
    deleteRecipe (some imageRecipe) ownerUser {} = .deleted := by
  refine ⟨by decide, ?_, ?_⟩
  · exact (sidecar_deletion_amended imageRecipe ownerUser
      { clearImage := some "true" } {} (by decide)).2.2.1 rfl rfl
      (Or.inr (Or.inr rfl))
  · exact (sidecar_deletion_amended imageRecipe ownerUser
      { clearImage := some "true" } {} (by decide)).2.2.2.2
      (Or.inr (Or.inr rfl))

/-! ## Ingredient payload encodings (C5) -/

lemma jsSort_eq_self (le : α → α → Bool) (l : List α)
    (h : l.Pairwise fun x y => le y x = false) : jsSort le l = l := by
  induction l with
  | nil => rfl
  | cons a as ih =>
    simp only [jsSort]
    rw [ih h.of_cons]
    cases as with
    | nil => rfl
    | cons b bs =>
      have hba : le b a = false := (List.pairwise_cons.mp h).1 b (by simp)
      simp [insertSorted, hba]

lemma range_map_getD (vs : List String) :
    (List.range vs.length).map (fun i => vs.getD i "") = vs := by
  induction vs with
  | nil => rfl
  | cons a tl ih =>
    rw [List.length_cons, List.range_succ_eq_map, List.map_cons,
      List.map_map]
    have hcomp : ((fun i => (a :: tl).getD i "") ∘ Nat.succ) =
        fun i => tl.getD i "" := by
      funext i
      simp
    rw [hcomp, ih]
    rfl

lemma ingKey_mono : ∀ j, j < 10 → ∀ i, i < j →
    jsStrLe ("ingredients[" ++ Nat.repr j ++ "]")
      ("ingredients[" ++ Nat.repr i ++ "]") = false := by
  decide

lemma indexedBody_pairs_pairwise (vs : List String)
    (hlen : vs.length ≤ 10) :
    (indexedBody vs).pairs.Pairwise fun x y => keyLe y x = false := by
  simp only [indexedBody]
  rw [List.pairwise_map]
  have hr : (List.range vs.length).Pairwise (· < ·) :=
    List.pairwise_lt_range _
  refine hr.imp_of_mem ?_
  intro i j hi hj hij
  have hj10 : j < 10 := by
    have := List.mem_range.mp hj
    omega
  exact ingKey_mono j hj10 i hij

lemma indexedBody_filter (vs : List String) :
    (indexedBody vs).pairs.filter
      (fun kv => jsStartsWith kv.1 "ingredients[") = (indexedBody vs).pairs := by
  apply List.filter_eq_self.mpr
  intro kv hkv
  simp only [indexedBody, List.mem_map] at hkv
  rcases hkv with ⟨i, hi, rfl⟩
  show ("ingredients[".data).isPrefixOf
    (("ingredients[" ++ Nat.repr i ++ "]").data) = true
  rw [List.isPrefixOf_iff_prefix]
  refine ⟨(Nat.repr i).data ++ "]".data, ?_⟩
  simp [String.data_append]

lemma indexedIngredients_eq (vs : List String) (hlen : vs.length ≤ 10) :
    indexedIngredients (indexedBody vs).pairs = vs := by
  unfold indexedIngredients
  rw [indexedBody_filter,
    jsSort_eq_self keyLe _ (indexedBody_pairs_pairwise vs hlen)]
  simp only [indexedBody, List.map_map]
  exact range_map_getD vs

/-- Counterexample for C5: with eleven indexed keys `ingredients[0]` …
`ingredients[10]`, the lexicographic `.sort()` places `ingredients[10]`
before `ingredients[1]`, so numeric index order is not preserved for
every number of ingredients; moreover a native one-element array
`["5"]` and its JSON encoding `'["5"]'` normalize differently (the
comma-join `"5"` parses as a JSON number, so the native array is
wrapped whole). -/
theorem ingredient_encodings_cex :
    createParseIngredients (indexedBody elevenVals) ≠ elevenVals.map .str ∧
    createParseIngredients { ingredients := some (.vArr ["5"]) } ≠
      createParseIngredients { ingredients := some (.vStr "[\"5\"]") } := by
  constructor
  · intro h
    exact absurd (congrArg (List.map Entry.tagStr) h) (by decide)
  · intro h
    exact absurd (congrArg (List.map Entry.tagStr) h) (by decide)

/-- C5 amended: a JSON-encoded array of strings decodes to exactly its
elements; a native array whose comma-joined string is not valid JSON
and a single scalar string that does not parse as a JSON array
normalize to the same sequence as their JSON encodings; and the
indexed-key form preserves numeric index order for at most ten
ingredients (single-digit indices).  Beyond that the lexicographic key
sort breaks numeric order, and a native array whose join parses as JSON
is wrapped whole instead of used element-wise. -/
theorem ingredient_encodings_amended :
    (∀ (s : String) (xs : List String),
      jsonParse s = some (.jArr (xs.map .jStr)) →
      createParseIngredients (ingOnlyBody (.vStr s)) = xs.map .str) ∧
    (∀ xs, jsonParse (String.intercalate "," xs) = none →
      createParseIngredients (ingOnlyBody (.vArr xs)) = xs.map .str) ∧
    (∀ s, s ≠ "" → (∀ ys, jsonParse s ≠ some (.jArr ys)) →
      createParseIngredients (ingOnlyBody (.vStr s)) = [.str s]) ∧
    (∀ vs : List String, vs.length ≤ 10 →
      createParseIngredients (indexedBody vs) = vs.map .str) := by
  refine ⟨?_, ?_, ?_, ?_⟩
  · intro s xs h
    have hs : ¬(s = "") := by
      rintro rfl
      rw [show jsonParse "" = none from rfl] at h
      cases h
    simp [createParseIngredients, ingOnlyBody, jsTruthy, hs,
      jsToStringValue, h, entryOfJson, List.map_map, Function.comp]
  · intro xs h
    simp [createParseIngredients, ingOnlyBody, jsTruthy,
      jsToStringValue, h]
  · intro s hs hne
    cases hj : jsonParse s with
    | none =>
      simp [createParseIngredients, ingOnlyBody, jsTruthy, hs,
        jsToStringValue, hj]
    | some jv =>
      cases jv with
      | jArr ys => exact absurd hj (hne ys)
      | jNull =>
        simp [createParseIngredients, ingOnlyBody, jsTruthy, hs,
          jsToStringValue, hj]
      | jBool bb =>
        simp [createParseIngredients, ingOnlyBody, jsTruthy, hs,
          jsToStringValue, hj]
      | jNum lit =>
        simp [createParseIngredients, ingOnlyBody, jsTruthy, hs,
          jsToStringValue, hj]
      | jStr t =>
        simp [createParseIngredients, ingOnlyBody, jsTruthy, hs,
          jsToStringValue, hj]
      | jObj ms =>
        simp [createParseIngredients, ingOnlyBody, jsTruthy, hs,
          jsToStringValue, hj]
  · intro vs hlen
    have hred : createParseIngredients (indexedBody vs) =
        (indexedIngredients (indexedBody vs).pairs).map .str := rfl
    rw [hred, indexedIngredients_eq vs hlen]

/-- Witness for C5 (amended): the four encodings of `["a", "b"]`
(resp. the scalar `"salt"`, resp. two indexed keys) normalized
concretely. -/
theorem ingredient_encodings_amended_witness :
    createParseIngredients (ingOnlyBody (.vStr "[\"a\",\"b\"]")) =
        [Entry.str "a", Entry.str "b"] ∧
    createParseIngredients (ingOnlyBody (.vArr ["a", "b"])) =
        [Entry.str "a", Entry.str "b"] ∧
    createParseIngredients (ingOnlyBody (.vStr "salt")) =
        [Entry.str "salt"] ∧
    createParseIngredients (indexedBody ["x", "y"]) =
        [Entry.str "x", Entry.str "y"] := by
  refine ⟨ingredient_encodings_amended.1 "[\"a\",\"b\"]" ["a", "b"]
      (by rfl),
    ingredient_encodings_amended.2.1 ["a", "b"] (by rfl),
    ingredient_encodings_amended.2.2.1 "salt" (by decide) ?_,
    ingredient_encodings_amended.2.2.2 ["x", "y"] (by decide)⟩
  intro ys hy
  rw [show jsonParse "salt" = none from rfl] at hy
  exact Option.noConfusion hy

end RecipeApp
